import Mathlib

/-!
# zap-server: the serial queue-drain scheduler of `src/zap-server/server.js`

A shallow embedding of the message queue, of `processQueue`, of the
`POST /send-message` handler and of `getRandomDelay`, followed by the properties
proved about them.

Modelling conventions.

* JavaScript runs one callback at a time.  An `async` function runs synchronously
  up to its first `await`; there it suspends and gives control back to its caller.
  A suspended activation of `processQueue` is kept in the state as a `Susp`; the
  environment resumes it with an event (the awaited promise settles, the timer
  fires).
* `clientWpp.sendText` belongs to the session library.  It is an `async` method: a
  call returns a promise that the environment settles later, either resolved or
  rejected with some value.
* The body of a request is whatever JSON the client sends: `express.json()` hands
  the handler any JSON value in `number` and `message`, and lines 136-142 make no
  type check.  `req.body` is taken to be an object, as Express 4 leaves it.
* JavaScript numbers are IEEE-754 binary64.  A non-negative finite double is an
  integer multiple of `2^-1074`; it is represented by that multiple, a `Nat`, and
  every arithmetic result is rounded to nearest, ties to even.
-/

namespace ZapServer

/-! ## Configuration (lines 16-17) -/

/-- The constant `MIN_DELAY` of line 16, in milliseconds. -/
def MIN_DELAY : Nat := 10000

/-- The constant `MAX_DELAY` of line 17, in milliseconds. -/
def MAX_DELAY : Nat := 25000

/-! ## binary64 arithmetic -/

/-- The number of units of `2^-1074` in `1.0`. -/
def one64 : Nat := 2 ^ 1074

/-- Rounding of an exact non-negative result, given in units of `2^-1074`, to the
nearest binary64 value, ties to even.  A value with bit length at most 53 is kept;
otherwise the spacing of doubles in the binade of `n` is `2 ^ (log2 n - 52)` units.
Overflow to infinity is not represented: the values met here stay below `2^15`. -/
def roundDouble (n : Nat) : Nat :=
  let u := 2 ^ (Nat.log2 n - 52)
  let q := n / u
  let rem := n % u
  if 2 * rem < u then q * u
  else if u < 2 * rem then (q + 1) * u
  else (q + q % 2) * u

/-- A non-negative finite double, as a number of units of `2^-1074`. -/
def isDouble (n : Nat) : Prop := roundDouble n = n

instance (n : Nat) : Decidable (isDouble n) := by
  unfold isDouble
  infer_instance

/-- Lines 31-33, `Math.floor(Math.random() * (MAX_DELAY - MIN_DELAY + 1) + MIN_DELAY)`,
as a function of the value `r` that `Math.random()` returned (in units of `2^-1074`).
`MAX_DELAY - MIN_DELAY + 1` is an exact integer; the product is rounded, then the
sum is rounded, then `Math.floor` is taken. -/
def getRandomDelay (r : Nat) : Nat :=
  roundDouble (roundDouble (r * (MAX_DELAY - MIN_DELAY + 1)) + MIN_DELAY * one64) / one64

/-! ## Values of the request body -/

/-- A value that `express.json()` can put in a field of `req.body`, other than
`null`, as far as the code looks at it.  `number zero text`: a JSON number, `zero`
telling whether it is 0 and `text` being what `Number.prototype.toString` gives.
`array joined`: an array, `joined` being what `Array.prototype.join` gives for its
elements, `none` when converting an element throws.  `object ownToString`: a plain
object, with or without an own property named `toString`; coming from JSON, the value
of such a property is never a function. -/
inductive JsValue where
  | bool (b : Bool)
  | number (zero : Bool) (text : String)
  | string (s : String)
  | array (joined : Option String)
  | object (ownToString : Bool)
  deriving DecidableEq, Repr

instance : Coe String JsValue := ⟨JsValue.string⟩

/-- The truth value of a body value, as the test `!x` of line 138 takes it. -/
def truthy : JsValue → Bool
  | JsValue.bool b => b
  | JsValue.number zero _ => !zero
  | JsValue.string s => !(s == "")
  | JsValue.array _ => true
  | JsValue.object _ => true

/-- The string form of a body value: the result of `number.toString()` (line 52) and
equally of the template strings of lines 61 and 144, or `none` when the conversion
throws a `TypeError`.  An object whose own `toString` is not a function has no string
form: calling it fails, and the template string finds no method that returns a
primitive.  An array has the string form of its `join`. -/
def toStr : JsValue → Option String
  | JsValue.bool b => some (if b then "true" else "false")
  | JsValue.number _ text => some text
  | JsValue.string s => some s
  | JsValue.array joined => joined
  | JsValue.object ownToString => if ownToString then none else some "[object Object]"

/-! ## Destination normalisation (lines 52-53) -/

/-- The class `\D` of a regular expression without the `u` flag: any character that
is not one of `0` to `9`. -/
def isNonDigit (c : Char) : Bool := !('0' ≤ c && c ≤ '9')

/-- The call `.replace(/\D/g, '')`: each character matching `\D` is replaced by the
empty string, the others are kept in place. -/
def replaceNonDigits : List Char → List Char
  | [] => []
  | c :: cs => if isNonDigit c then replaceNonDigits cs else c :: replaceNonDigits cs

/-- Line 52, `number.toString().replace(/\D/g, '')`, applied to the string form of
`number`. -/
def cleanNumber (number : String) : String := String.mk (replaceNonDigits number.data)

/-- Line 53, the template string made of `cleanNumber` and the suffix `@c.us`. -/
def formattedNumber (number : String) : String := cleanNumber number ++ "@c.us"

/-! ## State -/

/-- An element of `messageQueue`: the object `{ number, message }` pushed at line 142.
Both fields passed the test of line 138, which no type check precedes. -/
structure SendJob where
  number : JsValue
  message : JsValue
  deriving DecidableEq, Repr

/-- The value carried by a rejected `sendText` promise, as far as line 61 looks at
it.  Line 61 reads `error.message`: on `null` and `undefined` that property access
throws a `TypeError`; on any other value it yields a string or `undefined`. -/
inductive ErrVal where
  | nullish
  | value (msg : Option String)
  deriving DecidableEq, Repr

/-- How the promise returned by `clientWpp.sendText` settles. -/
inductive Outcome where
  | resolved
  | rejected (error : ErrVal)
  deriving DecidableEq, Repr

/-- The point at which an activation of `processQueue` is suspended: at the `await`
of line 55, holding its local `item`, or at the `await sleep(delay)` of line 67. -/
inductive Susp where
  | awaitSend (item : SendJob)
  | awaitSleep
  deriving DecidableEq, Repr

/-- An observable call made by `processQueue`: `clientWpp.sendText(address, body)`
or `sleep(ms)`. -/
inductive Call where
  | sendText (address : String) (body : JsValue)
  | sleep (ms : Nat)
  deriving DecidableEq, Repr

/-- The module-level variables of lines 24-26 together with the suspended activations
of `processQueue` and three observers: `calls` records every `sendText` and `sleep`
call in the order made, `accepted` records the job of every request answered 200, and
`escaped` counts the activations of `processQueue` that ended by an exception. -/
structure State where
  clientWpp : Bool
  messageQueue : List SendJob
  isProcessingQueue : Bool
  drains : List Susp
  calls : List Call
  accepted : List SendJob
  escaped : Nat
  deriving DecidableEq, Repr

/-- The state after the module has been loaded: `clientWpp = null`, an empty queue,
`isProcessingQueue = false`. -/
def init : State :=
  { clientWpp := false, messageQueue := [], isProcessingQueue := false,
    drains := [], calls := [], accepted := [], escaped := 0 }

/-- Whether the `number` of a job has a string form, so that the job can be sent. -/
def sendable (j : SendJob) : Bool := (toStr j.number).isSome

/-- The pair `(address, body)` that a job is sent as; it has a meaning for a job that
can be sent. -/
def toPair (j : SendJob) : String × JsValue :=
  (formattedNumber ((toStr j.number).getD ""), j.message)

/-- The pairs of the jobs of a list that can be sent, in order. -/
def pairs (l : List SendJob) : List (String × JsValue) := (l.filter sendable).map toPair

/-- The `(address, body)` pairs of the `sendText` calls in a call log, in order. -/
def sentPairs : List Call → List (String × JsValue)
  | [] => []
  | Call.sendText a b :: cs => (a, b) :: sentPairs cs
  | Call.sleep _ :: cs => sentPairs cs

/-- The delays of the `sleep` calls in a call log, in order. -/
def delays : List Call → List Nat
  | [] => []
  | Call.sendText _ _ :: cs => delays cs
  | Call.sleep ms :: cs => ms :: delays cs

/-- Whether an activation is suspended in a `sendText` call. -/
def Susp.isSend : Susp → Bool
  | Susp.awaitSend _ => true
  | Susp.awaitSleep => false

/-- The number of `sendText` calls that have been made and have not settled: each is
awaited by the activation that made it. -/
def inFlight (s : State) : Nat := (s.drains.filter Susp.isSend).length

/-! ## processQueue (lines 40-73) -/

/-- The `while` test of line 47 and what follows it up to the next suspension.  With
an empty queue: line 71 clears the flag and the function returns (`none`).  With a
job in the queue: `shift` (line 48); when `number` has a string form, the address
(lines 52-53), the call of `sendText` and the `await` (line 55).  When it has none,
line 52 throws inside the `try`, and the `catch` block throws in turn at the template
string of line 61, which converts the same `number`: the exception leaves
`processQueue` with the job removed, nothing sent and line 71 not reached. -/
def loopTop (s : State) : State × Option Susp :=
  match s.messageQueue with
  | [] => ({ s with isProcessingQueue := false }, none)
  | item :: rest =>
    match toStr item.number with
    | some t =>
      ({ s with messageQueue := rest,
                calls := s.calls ++ [Call.sendText (formattedNumber t) item.message] },
        some (Susp.awaitSend item))
    | none => ({ s with messageQueue := rest, escaped := s.escaped + 1 }, none)

/-- Lines 64-68 and the jump back to line 47: with a non-empty queue a delay is drawn
(`r` is what `Math.random()` returns) and `sleep` is awaited; otherwise control is
back at the `while` test. -/
def pace (s : State) (r : Nat) : State × Option Susp :=
  if s.messageQueue.length > 0 then
    ({ s with calls := s.calls ++ [Call.sleep (getRandomDelay r)] }, some Susp.awaitSleep)
  else loopTop s

/-- The promise awaited at line 55 settles.  Resolved: lines 57-58, then line 64.
Rejected: the `catch` of lines 60-62 evaluates `error.message`; for a nullish `error`
that throws inside the handler, the exception leaves `processQueue` and line 71 is
never reached; otherwise the failure is logged and control reaches line 64. -/
def afterSend (s : State) (o : Outcome) (r : Nat) : State × Option Susp :=
  match o with
  | Outcome.resolved => pace s r
  | Outcome.rejected ErrVal.nullish => ({ s with escaped := s.escaped + 1 }, none)
  | Outcome.rejected (ErrVal.value _) => pace s r

/-- A call of `processQueue`: the guard of lines 41-43, line 45, and the loop up to
its first suspension, where the call returns to its caller. -/
def processQueue (s : State) : State :=
  if s.isProcessingQueue || s.messageQueue.length == 0 || !s.clientWpp then s
  else
    match loopTop { s with isProcessingQueue := true } with
    | (s1, some k) => { s1 with drains := s1.drains ++ [k] }
    | (s1, none) => s1

/-- The suspended activation number `i` has run up to its next suspension `k`, or
has ended (`none`). -/
def resume (i : Nat) (res : State × Option Susp) : State :=
  match res with
  | (s1, some k) => { s1 with drains := s1.drains.set i k }
  | (s1, none) => { s1 with drains := s1.drains.eraseIdx i }

/-! ## POST /send-message (lines 12 and 125-153) -/

/-- What the server reads of a request: whether `express.json()` (line 12) can parse
the body, the header `x-api-token`, and the fields `number` and `message` of
`req.body`, each `none` when it is absent or `null`. -/
structure Request where
  parses : Bool
  token : Option String
  number : Option JsValue
  message : Option JsValue
  deriving DecidableEq, Repr

/-- The status code of the response and, in a 200 response, its `queueSize`. -/
structure Response where
  status : Nat
  queueSize : Option Nat
  deriving DecidableEq, Repr

/-- The push of line 142. -/
def push (s : State) (item : SendJob) : State :=
  { s with messageQueue := s.messageQueue ++ [item] }

/-- The observer `accepted` takes note of the job of a request that is answered 200. -/
def noteAccepted (s : State) (item : SendJob) : State :=
  { s with accepted := s.accepted ++ [item] }

/-- The test `!x` of line 138 on a field of the body. -/
def falsy : Option JsValue → Bool
  | none => true
  | some v => !truthy v

/-- A request to `POST /send-message`.  A body that `express.json()` cannot parse is
answered 400 by the middleware of line 12, before the handler runs.  Otherwise the
handler runs; `API_TOKEN` is the secret read from the environment at line 15 (the
process exits at line 21 when it is empty).  After the push of line 142, the template
string of line 144 converts `number`: when that throws, Express answers 500, with the
job left in the queue and `processQueue` not called. -/
def sendMessage (API_TOKEN : String) (s : State) (req : Request) : State × Response :=
  if !req.parses then (s, { status := 400, queueSize := none })
  else if req.token != some API_TOKEN then (s, { status := 403, queueSize := none })
  else if !s.clientWpp then (s, { status := 503, queueSize := none })
  else
    match req.number, req.message with
    | some number, some message =>
      if falsy (some number) || falsy (some message) then
        (s, { status := 400, queueSize := none })
      else
        let item : SendJob := { number := number, message := message }
        let s1 := push s item
        match toStr number with
        | none => (s1, { status := 500, queueSize := none })
        | some _ =>
          let s2 := processQueue (noteAccepted s1 item)
          (s2, { status := 200, queueSize := some s2.messageQueue.length })
    | _, _ => (s, { status := 400, queueSize := none })

/-! ## The event loop -/

/-- What the environment can make happen: the promise of `wppconnect.create`
resolves (lines 90-99), a `POST /send-message` request arrives, the `sendText`
promise awaited by activation `i` settles with outcome `o` (`r` is the next value
of `Math.random()`), or the timer awaited by activation `i` fires. -/
inductive Event where
  | sessionReady
  | post (req : Request)
  | sendSettles (i : Nat) (o : Outcome) (r : Nat)
  | sleepElapses (i : Nat)
  deriving DecidableEq, Repr

/-- One turn of the event loop.  An event that names no activation suspended at the
matching `await` cannot happen and leaves the state as it is. -/
def step (API_TOKEN : String) (s : State) : Event → State
  | Event.sessionReady => processQueue { s with clientWpp := true }
  | Event.post req => (sendMessage API_TOKEN s req).1
  | Event.sendSettles i o r =>
    match s.drains.get? i with
    | some (Susp.awaitSend _) => resume i (afterSend s o r)
    | _ => s
  | Event.sleepElapses i =>
    match s.drains.get? i with
    | some Susp.awaitSleep => resume i (loopTop s)
    | _ => s

/-- The state after a sequence of events. -/
def run (API_TOKEN : String) (s : State) (evs : List Event) : State :=
  evs.foldl (step API_TOKEN) s

/-- The events of a drain that nothing interrupts: each pending send settles with the
next outcome, and each sleep that follows elapses. -/
def drainEvents : List (Outcome × Nat) → List Event
  | [] => []
  | [(o, r)] => [Event.sendSettles 0 o r]
  | (o, r) :: rest => Event.sendSettles 0 o r :: Event.sleepElapses 0 :: drainEvents rest

/-- The `sendText` call made for a job that can be sent. -/
def sendCall (j : SendJob) : Call := Call.sendText (toPair j).1 (toPair j).2

/-- The calls of a drain over the given jobs that runs to its end: one `sendText` per
job in order, and between two consecutive sends one `sleep` whose delay comes from
the draw that accompanied the earlier send. -/
def drainCalls : List SendJob → List Nat → List Call
  | [], _ => []
  | [j], _ => [sendCall j]
  | j :: js, rs => sendCall j :: Call.sleep (getRandomDelay rs.headI) :: drainCalls js rs.tail

/-- The job that line 142 builds from the body of a request. -/
def jobOf (req : Request) : SendJob :=
  { number := req.number.getD (JsValue.string ""),
    message := req.message.getD (JsValue.string "") }

/-- The jobs enqueued by a sequence of events that starts in state `s`, in order: one
for each request that is answered with status 200. -/
def enqueuedBy (API_TOKEN : String) : State → List Event → List SendJob
  | _, [] => []
  | s, Event.post req :: es =>
    (if (sendMessage API_TOKEN s req).2.status = 200 then [jobOf req] else []) ++
      enqueuedBy API_TOKEN (step API_TOKEN s (Event.post req)) es
  | s, Event.sessionReady :: es => enqueuedBy API_TOKEN (step API_TOKEN s Event.sessionReady) es
  | s, Event.sendSettles i o r :: es =>
    enqueuedBy API_TOKEN (step API_TOKEN s (Event.sendSettles i o r)) es
  | s, Event.sleepElapses i :: es =>
    enqueuedBy API_TOKEN (step API_TOKEN s (Event.sleepElapses i)) es

/-! ## Sample values -/

/-- A well-formed request with the token `k` for the given destination and text. -/
def mkReq (number message : String) : Request :=
  { parses := true, token := some "k", number := some (JsValue.string number),
    message := some (JsValue.string message) }

/-- Three requests and one failure value used in the examples. -/
def reqA : Request := mkReq "(11) 98888-7777" "A"

/-- Second sample request. -/
def reqB : Request := mkReq "5511977776666" "B"

/-- Third sample request. -/
def reqC : Request := mkReq "+55 11 96666 5555" "C"

/-- The request whose body is `{"number": {"toString": null}, "message": "X"}`, with
the right token. -/
def reqBad : Request :=
  { parses := true, token := some "k", number := some (JsValue.object true),
    message := some (JsValue.string "X") }

/-- A rejection with an `Error` object. -/
def failed : Outcome := Outcome.rejected (ErrVal.value (some "timeout"))

/-- The session becomes ready, A, B and C are posted while the send of A is pending,
and every send resolves. -/
def traceABC : List Event :=
  [Event.sessionReady, Event.post reqA, Event.post reqB, Event.post reqC,
   Event.sendSettles 0 Outcome.resolved 0, Event.sleepElapses 0,
   Event.sendSettles 0 Outcome.resolved 0, Event.sleepElapses 0,
   Event.sendSettles 0 Outcome.resolved 0]

/-- The session becomes ready, A is posted and its send starts, B is posted while that
send is pending, and the `sendText` promise of A is rejected with `undefined`. -/
def traceNullish : List Event :=
  [Event.sessionReady, Event.post reqA, Event.post reqB,
   Event.sendSettles 0 (Outcome.rejected ErrVal.nullish) 0]

/-! ## The invariant of the event loop -/

/-- What holds of every state the event loop can reach, and also between the push of
line 142 and the call of `processQueue` at line 146: at most one activation of
`processQueue` is suspended, and only under the flag; jobs wait only with a session;
every accepted job can be sent; the sends made, followed by the pairs of the jobs
waiting, are the pairs of the jobs accepted; and under the flag an activation is
suspended unless one has ended by an exception. -/
structure PreInv (s : State) : Prop where
  single : s.drains.length ≤ 1
  flagged : s.drains ≠ [] → s.isProcessingQueue = true
  queueClient : s.messageQueue ≠ [] → s.clientWpp = true
  canSend : ∀ j ∈ s.accepted, toStr j.number ≠ none
  fifo : sentPairs s.calls ++ pairs s.messageQueue = s.accepted.map toPair
  live : s.isProcessingQueue = true → s.drains.length = 1 ∨ 0 < s.escaped

/-- What holds of every state the event loop can reach: `PreInv`, and with the flag
cleared no job that can be sent waits. -/
structure Inv (s : State) extends PreInv s : Prop where
  idleQueue : s.isProcessingQueue = false → pairs s.messageQueue = []

/-! ## Lemmas -/

theorem sentPairs_append (a b : List Call) :
    sentPairs (a ++ b) = sentPairs a ++ sentPairs b := by
  induction a with
  | nil => rfl
  | cons c cs ih =>
    cases c with
    | sendText x y => simp [sentPairs, ih]
    | sleep ms => simp [sentPairs, ih]

theorem delays_append (a b : List Call) : delays (a ++ b) = delays a ++ delays b := by
  induction a with
  | nil => rfl
  | cons c cs ih =>
    cases c with
    | sendText x y => simp [delays, ih]
    | sleep ms => simp [delays, ih]

theorem pairs_append (a b : List SendJob) : pairs (a ++ b) = pairs a ++ pairs b := by
  simp [pairs]

theorem pairs_cons_some {j : SendJob} {t : String} (h : toStr j.number = some t)
    (l : List SendJob) : pairs (j :: l) = (formattedNumber t, j.message) :: pairs l := by
  simp [pairs, sendable, toPair, h]

theorem pairs_cons_none {j : SendJob} (h : toStr j.number = none) (l : List SendJob) :
    pairs (j :: l) = pairs l := by
  simp [pairs, sendable, h]

theorem pairs_eq_map {l : List SendJob} (h : ∀ j ∈ l, toStr j.number ≠ none) :
    pairs l = l.map toPair := by
  induction l with
  | nil => rfl
  | cons j js ih =>
    have hj : toStr j.number ≠ none := h j (List.mem_cons_self _ _)
    obtain ⟨t, ht⟩ := Option.ne_none_iff_exists'.mp hj
    rw [pairs_cons_some ht, ih (fun x hx => h x (List.mem_cons_of_mem _ hx))]
    simp [toPair, ht]

theorem inv_init : Inv init :=
  { single := by simp [init]
    flagged := by simp [init]
    queueClient := by simp [init]
    canSend := by simp [init]
    fifo := by simp [init, sentPairs, pairs]
    live := by simp [init]
    idleQueue := by simp [init, pairs] }

theorem drains_singleton {s : State} (h : Inv s) {i : Nat} {k : Susp}
    (hk : s.drains.get? i = some k) : i = 0 ∧ s.drains = [k] := by
  have hl := h.single
  cases hd : s.drains with
  | nil => simp [hd] at hk
  | cons a t =>
    cases t with
    | nil =>
      cases i with
      | zero => simp [hd] at hk; simp [hk]
      | succ n => simp [hd] at hk
    | cons b u => simp [hd] at hl

theorem inv_loopTop {s : State} (h : Inv s) {k : Susp} (hd : s.drains = [k]) :
    Inv (resume 0 (loopTop s)) := by
  have hf : s.isProcessingQueue = true := h.flagged (by simp [hd])
  have hcan := h.canSend
  have hfifo := h.fifo
  cases hq : s.messageQueue with
  | nil =>
    simp only [hq] at hfifo
    exact
      { single := by simp [loopTop, resume, hq, hd]
        flagged := by simp [loopTop, resume, hq, hd]
        idleQueue := by simp [loopTop, resume, hq, pairs]
        queueClient := by simp [loopTop, resume, hq]
        canSend := by simpa [loopTop, resume, hq] using hcan
        fifo := by simpa [loopTop, resume, hq] using hfifo
        live := by simp [loopTop, resume, hq] }
  | cons item rest =>
    have hc := h.queueClient (by simp [hq])
    simp only [hq] at hfifo
    cases ht : toStr item.number with
    | none =>
      rw [pairs_cons_none ht] at hfifo
      exact
        { single := by simp [loopTop, resume, hq, ht, hd]
          flagged := by simp [loopTop, resume, hq, ht, hd]
          idleQueue := by simp [loopTop, resume, hq, ht, hf]
          queueClient := by simp [loopTop, resume, hq, ht, hc]
          canSend := by simpa [loopTop, resume, hq, ht] using hcan
          fifo := by simpa [loopTop, resume, hq, ht] using hfifo
          live := by simp [loopTop, resume, hq, ht] }
    | some t =>
      rw [pairs_cons_some ht] at hfifo
      exact
        { single := by simp [loopTop, resume, hq, ht, hd]
          flagged := by simp [loopTop, resume, hq, ht, hf]
          idleQueue := by simp [loopTop, resume, hq, ht, hf]
          queueClient := by simp [loopTop, resume, hq, ht, hc]
          canSend := by simpa [loopTop, resume, hq, ht] using hcan
          fifo := by simpa [loopTop, resume, hq, ht, sentPairs_append, sentPairs] using hfifo
          live := by simp [loopTop, resume, hq, ht, hd] }

theorem inv_pace {s : State} (h : Inv s) {k : Susp} (hd : s.drains = [k]) (r : Nat) :
    Inv (resume 0 (pace s r)) := by
  unfold pace
  split
  · have hf : s.isProcessingQueue = true := h.flagged (by simp [hd])
    exact
      { single := by simp [resume, hd]
        flagged := by simp [resume, hf]
        idleQueue := by simp [resume, hf]
        queueClient := by simpa [resume] using h.queueClient
        canSend := by simpa [resume] using h.canSend
        fifo := by simpa [resume, sentPairs_append, sentPairs] using h.fifo
        live := by simp [resume, hd] }
  · exact inv_loopTop h hd

theorem inv_afterSend {s : State} (h : Inv s) {k : Susp} (hd : s.drains = [k])
    (o : Outcome) (r : Nat) : Inv (resume 0 (afterSend s o r)) := by
  have hf : s.isProcessingQueue = true := h.flagged (by simp [hd])
  cases o with
  | resolved => exact inv_pace h hd r
  | rejected e =>
    cases e with
    | nullish =>
      exact
        { single := by simp [afterSend, resume, hd]
          flagged := by simp [afterSend, resume, hd]
          idleQueue := by simp [afterSend, resume, hf]
          queueClient := by simpa [afterSend, resume] using h.queueClient
          canSend := by simpa [afterSend, resume] using h.canSend
          fifo := by simpa [afterSend, resume] using h.fifo
          live := by simp [afterSend, resume] }
    | value msg => exact inv_pace h hd r

theorem inv_start {s : State} (h : PreInv s) (hf : s.isProcessingQueue = false)
    (hc : s.clientWpp = true) (hne : s.messageQueue ≠ []) : Inv (processQueue s) := by
  have hd : s.drains = [] := by
    by_contra hd
    have := h.flagged hd
    simp [hf] at this
  have hcan := h.canSend
  have hfifo := h.fifo
  cases hq : s.messageQueue with
  | nil => exact absurd hq hne
  | cons item rest =>
    simp only [hq] at hfifo
    cases ht : toStr item.number with
    | none =>
      rw [pairs_cons_none ht] at hfifo
      exact
        { single := by simp [processQueue, hf, hc, loopTop, hq, ht, hd]
          flagged := by simp [processQueue, hf, hc, loopTop, hq, ht, hd]
          idleQueue := by simp [processQueue, hf, hc, loopTop, hq, ht]
          queueClient := by simp [processQueue, hf, hc, loopTop, hq, ht]
          canSend := by simpa [processQueue, hf, hc, loopTop, hq, ht] using hcan
          fifo := by simpa [processQueue, hf, hc, loopTop, hq, ht] using hfifo
          live := by simp [processQueue, hf, hc, loopTop, hq, ht] }
    | some t =>
      rw [pairs_cons_some ht] at hfifo
      exact
        { single := by simp [processQueue, hf, hc, loopTop, hq, ht, hd]
          flagged := by simp [processQueue, hf, hc, loopTop, hq, ht]
          idleQueue := by simp [processQueue, hf, hc, loopTop, hq, ht]
          queueClient := by simp [processQueue, hf, hc, loopTop, hq, ht]
          canSend := by simpa [processQueue, hf, hc, loopTop, hq, ht] using hcan
          fifo := by
            simpa [processQueue, hf, hc, loopTop, hq, ht, sentPairs_append, sentPairs]
              using hfifo
          live := by simp [processQueue, hf, hc, loopTop, hq, ht, hd] }

theorem processQueue_flagged {s : State} (hf : s.isProcessingQueue = true) :
    processQueue s = s := by
  simp [processQueue, hf]

theorem inv_processQueue {s : State} (h : Inv s) : Inv (processQueue s) := by
  cases hf : s.isProcessingQueue with
  | true => rw [processQueue_flagged hf]; exact h
  | false =>
    by_cases hq : s.messageQueue = []
    · have : processQueue s = s := by simp [processQueue, hq]
      rw [this]
      exact h
    · exact inv_start h.toPreInv hf (h.queueClient hq) hq

theorem inv_sessionReady {s : State} (h : Inv s) :
    Inv (processQueue { s with clientWpp := true }) :=
  inv_processQueue
    { single := h.single, flagged := h.flagged, idleQueue := h.idleQueue,
      queueClient := fun _ => rfl, canSend := h.canSend, fifo := h.fifo, live := h.live }

theorem sendMessage_cases (tok : String) (s : State) (req : Request) :
    sendMessage tok s req = (s, { status := 400, queueSize := none })
      ∨ sendMessage tok s req = (s, { status := 403, queueSize := none })
      ∨ sendMessage tok s req = (s, { status := 503, queueSize := none })
      ∨ (∃ number message, req.number = some number ∧ req.message = some message
          ∧ s.clientWpp = true ∧ toStr number = none
          ∧ sendMessage tok s req
              = (push s { number := number, message := message },
                  { status := 500, queueSize := none }))
      ∨ (∃ number message t, req.number = some number ∧ req.message = some message
          ∧ req.parses = true ∧ req.token = some tok ∧ s.clientWpp = true
          ∧ truthy number = true ∧ truthy message = true ∧ toStr number = some t
          ∧ sendMessage tok s req
              = (processQueue (noteAccepted (push s { number := number, message := message })
                    { number := number, message := message }),
                  { status := 200,
                    queueSize := some (processQueue (noteAccepted
                      (push s { number := number, message := message })
                      { number := number, message := message })).messageQueue.length })) := by
  obtain ⟨p, t, n, m⟩ := req
  unfold sendMessage
  by_cases hp : (!p) = true
  · simp [hp]
  · by_cases ht : (t != some tok) = true
    · simp [hp, ht]
    · by_cases hc : (!s.clientWpp) = true
      · simp [hp, ht, hc]
      · cases n with
        | none => simp [hp, ht, hc]
        | some number =>
          cases m with
          | none => simp [hp, ht, hc]
          | some message =>
            by_cases hfal : (falsy (some number) || falsy (some message)) = true
            · simp [hp, ht, hc, hfal]
            · have hc2 : s.clientWpp = true := by simpa using hc
              have hp2 : p = true := by simpa using hp
              have ht2 : t = some tok := by simpa using ht
              have hn : truthy number = true := by
                cases h : truthy number <;> simp [falsy, h] at hfal ⊢
              have hm : truthy message = true := by
                cases h : truthy message <;> simp [falsy, h] at hfal ⊢
              cases hs : toStr number with
              | none =>
                right; right; right; left
                exact ⟨number, message, rfl, rfl, hc2, hs, by simp [hp, ht, hc, hfal, hs]⟩
              | some u =>
                right; right; right; right
                exact ⟨number, message, u, rfl, rfl, hp2, ht2, hc2, hn, hm, hs,
                  by simp [hp, ht, hc, hfal, hs]⟩

theorem sendMessage_accept (tok : String) (s : State) (req : Request)
    (h : (sendMessage tok s req).2.status = 200) :
    ∃ number message t, req.number = some number ∧ req.message = some message
      ∧ req.parses = true ∧ req.token = some tok ∧ s.clientWpp = true
      ∧ truthy number = true ∧ truthy message = true ∧ toStr number = some t
      ∧ sendMessage tok s req
          = (processQueue (noteAccepted (push s { number := number, message := message })
                { number := number, message := message }),
              { status := 200,
                queueSize := some (processQueue (noteAccepted
                  (push s { number := number, message := message })
                  { number := number, message := message })).messageQueue.length }) := by
  rcases sendMessage_cases tok s req with h1 | h1 | h1 | ⟨_, _, _, _, _, _, h1⟩ | h1
  · simp [h1] at h
  · simp [h1] at h
  · simp [h1] at h
  · simp [h1] at h
  · exact h1

theorem sendMessage_reject (tok : String) (s : State) (req : Request)
    (h : (sendMessage tok s req).2.status ≠ 200) (h5 : (sendMessage tok s req).2.status ≠ 500) :
    (sendMessage tok s req).1 = s := by
  rcases sendMessage_cases tok s req with h1 | h1 | h1 | ⟨_, _, _, _, _, _, h1⟩
    | ⟨_, _, _, _, _, _, _, _, _, _, _, h1⟩
  · simp [h1]
  · simp [h1]
  · simp [h1]
  · simp [h1] at h5
  · simp [h1] at h

theorem inv_sendMessage (tok : String) {s : State} (h : Inv s) (req : Request) :
    Inv (sendMessage tok s req).1 := by
  rcases sendMessage_cases tok s req with h1 | h1 | h1 | ⟨n, m, _, _, hc, hs, h1⟩
    | ⟨n, m, t, _, _, _, _, hc, _, _, hs, h1⟩
  · simpa [h1] using h
  · simpa [h1] using h
  · simpa [h1] using h
  · rw [h1]
    have hpairs : pairs (s.messageQueue ++ [{ number := n, message := m }])
        = pairs s.messageQueue := by
      rw [pairs_append, pairs_cons_none (j := { number := n, message := m }) hs]
      simp [pairs]
    exact
      { single := h.single
        flagged := h.flagged
        idleQueue := by
          intro hf
          show pairs (s.messageQueue ++ [{ number := n, message := m }]) = []
          rw [hpairs]
          exact h.idleQueue hf
        queueClient := fun _ => hc
        canSend := h.canSend
        fifo := by
          show sentPairs s.calls ++ pairs (s.messageQueue ++ [{ number := n, message := m }])
            = s.accepted.map toPair
          rw [hpairs]
          exact h.fifo
        live := h.live }
  · rw [h1]
    have hpairs : pairs (s.messageQueue ++ [{ number := n, message := m }])
        = pairs s.messageQueue ++ [toPair { number := n, message := m }] := by
      rw [pairs_append, pairs_cons_some (j := { number := n, message := m }) hs]
      simp [pairs, toPair, hs]
    have hpre : PreInv (noteAccepted (push s { number := n, message := m })
        { number := n, message := m }) :=
      { single := h.single
        flagged := h.flagged
        queueClient := fun _ => hc
        canSend := by
          intro j hj
          have hj2 : j ∈ s.accepted ++ [{ number := n, message := m }] := hj
          rcases List.mem_append.mp hj2 with hj3 | hj3
          · exact h.canSend j hj3
          · simp only [List.mem_singleton] at hj3
            subst hj3
            simp [hs]
        fifo := by
          show sentPairs s.calls ++ pairs (s.messageQueue ++ [{ number := n, message := m }])
            = (s.accepted ++ [({ number := n, message := m } : SendJob)]).map toPair
          rw [hpairs, List.map_append, ← List.append_assoc, h.fifo]
          rfl
        live := h.live }
    cases hf : s.isProcessingQueue with
    | true =>
      rw [processQueue_flagged (by exact hf)]
      exact { toPreInv := hpre, idleQueue := fun h0 => absurd (hf ▸ h0) (by simp) }
    | false => exact inv_start hpre hf hc (by simp [noteAccepted, push])

theorem inv_step (tok : String) {s : State} (h : Inv s) (e : Event) : Inv (step tok s e) := by
  cases e with
  | sessionReady => exact inv_sessionReady h
  | post req => exact inv_sendMessage tok h req
  | sendSettles i o r =>
    simp only [step]
    split
    · rename_i item hk
      obtain ⟨hi, hd⟩ := drains_singleton h hk
      subst hi
      exact inv_afterSend h hd o r
    · exact h
  | sleepElapses i =>
    simp only [step]
    split
    · rename_i hk
      obtain ⟨hi, hd⟩ := drains_singleton h hk
      subst hi
      exact inv_loopTop h hd
    · exact h

theorem inv_run (tok : String) (evs : List Event) {s : State} (h : Inv s) :
    Inv (run tok s evs) := by
  induction evs generalizing s with
  | nil => exact h
  | cons e es ih => exact ih (inv_step tok h e)

theorem run_append (tok : String) (s : State) (a b : List Event) :
    run tok s (a ++ b) = run tok (run tok s a) b := by
  simp [run, List.foldl_append]

theorem loopTop_accepted (s : State) : (loopTop s).1.accepted = s.accepted := by
  unfold loopTop
  split
  · rfl
  · split <;> rfl

theorem pace_accepted (s : State) (r : Nat) : (pace s r).1.accepted = s.accepted := by
  unfold pace
  split
  · rfl
  · exact loopTop_accepted s

theorem afterSend_accepted (s : State) (o : Outcome) (r : Nat) :
    (afterSend s o r).1.accepted = s.accepted := by
  unfold afterSend
  split
  · exact pace_accepted s r
  · rfl
  · exact pace_accepted s r

theorem resume_accepted (i : Nat) (res : State × Option Susp) :
    (resume i res).accepted = res.1.accepted := by
  obtain ⟨s1, k⟩ := res
  cases k <;> rfl

theorem processQueue_accepted (s : State) : (processQueue s).accepted = s.accepted := by
  unfold processQueue
  split
  · rfl
  · cases hq : s.messageQueue with
    | nil => simp [loopTop, hq]
    | cons item rest => cases ht : toStr item.number <;> simp [loopTop, hq, ht]

theorem accepted_step (tok : String) (s : State) (e : Event) :
    (step tok s e).accepted = s.accepted ++ enqueuedBy tok s [e] := by
  cases e with
  | sessionReady => simp [step, enqueuedBy, processQueue_accepted]
  | post req =>
    simp only [step, enqueuedBy, List.append_nil]
    rcases sendMessage_cases tok s req with h1 | h1 | h1 | ⟨_, _, _, _, _, _, h1⟩
      | ⟨n, m, _, hn, hm, _, _, _, _, _, _, h1⟩
    · simp [h1]
    · simp [h1]
    · simp [h1]
    · simp [h1, push]
    · rw [h1]
      simp [processQueue_accepted, noteAccepted, push, jobOf, hn, hm]
  | sendSettles i o r =>
    simp only [step, enqueuedBy, List.append_nil]
    split
    · rw [resume_accepted, afterSend_accepted]
    · rfl
  | sleepElapses i =>
    simp only [step, enqueuedBy, List.append_nil]
    split
    · rw [resume_accepted, loopTop_accepted]
    · rfl

theorem enqueuedBy_cons (tok : String) (s : State) (e : Event) (es : List Event) :
    enqueuedBy tok s (e :: es) = enqueuedBy tok s [e] ++ enqueuedBy tok (step tok s e) es := by
  cases e <;> simp [enqueuedBy]

theorem accepted_run (tok : String) (evs : List Event) (s : State) :
    (run tok s evs).accepted = s.accepted ++ enqueuedBy tok s evs := by
  induction evs generalizing s with
  | nil => simp [run, enqueuedBy]
  | cons e es ih =>
    have h1 : run tok s (e :: es) = run tok (step tok s e) es := rfl
    rw [h1, ih, accepted_step, enqueuedBy_cons tok s e es, List.append_assoc]

theorem afterSend_handled (s : State) (o : Outcome) (r : Nat)
    (h : o ≠ Outcome.rejected ErrVal.nullish) : afterSend s o r = pace s r := by
  cases o with
  | resolved => rfl
  | rejected e =>
    cases e with
    | nullish => exact absurd rfl h
    | value msg => rfl

theorem sendCall_eq {j : SendJob} {t : String} (h : toStr j.number = some t) :
    sendCall j = Call.sendText (formattedNumber t) j.message := by
  simp [sendCall, toPair, h]

theorem drainCalls_cons (j : SendJob) (q : List SendJob) (rs : List Nat) :
    drainCalls (j :: q) rs = sendCall j :: (drainCalls (j :: q) rs).tail := by
  cases q <;> simp [drainCalls]

theorem sentPairs_drainCalls (q : List SendJob) :
    ∀ rs : List Nat, sentPairs (drainCalls q rs) = q.map toPair := by
  induction q with
  | nil => intro rs; simp [drainCalls, sentPairs]
  | cons j js ih =>
    intro rs
    cases js with
    | nil => simp [drainCalls, sentPairs, sendCall]
    | cons j2 js2 =>
      have := ih rs.tail
      simp [drainCalls, sentPairs, sendCall] at this ⊢
      exact this

theorem sentPairs_drainCalls_tail (j : SendJob) (q : List SendJob) (rs : List Nat) :
    sentPairs (drainCalls (j :: q) rs).tail = q.map toPair := by
  cases q with
  | nil => simp [drainCalls, sentPairs]
  | cons j2 js2 =>
    simp only [drainCalls, List.tail_cons, sentPairs]
    exact sentPairs_drainCalls (j2 :: js2) rs.tail

theorem delays_drainCalls_length (q : List SendJob) :
    ∀ rs : List Nat, (delays (drainCalls q rs)).length = q.length - 1 := by
  induction q with
  | nil => intro rs; simp [drainCalls, delays]
  | cons j js ih =>
    intro rs
    cases js with
    | nil => simp [drainCalls, delays, sendCall]
    | cons j2 js2 =>
      have := ih rs.tail
      simp [drainCalls, delays, sendCall] at this ⊢
      exact this

theorem drain_completes (tok : String) :
    ∀ (q : List SendJob) (s : State) (item : SendJob) (outs : List (Outcome × Nat)),
      s.messageQueue = q → s.drains = [Susp.awaitSend item] → outs.length = q.length + 1 →
      (∀ j ∈ q, toStr j.number ≠ none) →
      (∀ p ∈ outs, p.1 ≠ Outcome.rejected ErrVal.nullish) →
      run tok s (drainEvents outs)
        = { s with messageQueue := [], isProcessingQueue := false, drains := [],
                   calls := s.calls ++ (drainCalls (item :: q) (outs.map Prod.snd)).tail } := by
  intro q
  induction q with
  | nil =>
    intro s item outs hq hd hlen _ hok
    obtain ⟨c, mq, f, d, cs, acc, esc⟩ := s
    simp only at hq hd
    subst hq hd
    match outs, hlen, hok with
    | [(o, r)], _, hok =>
      have ho : o ≠ Outcome.rejected ErrVal.nullish := hok (o, r) (by simp)
      simp [drainEvents, run, step, afterSend_handled _ o r ho, pace, loopTop, resume, drainCalls]
  | cons j js ih =>
    intro s item outs hq hd hlen hcan hok
    obtain ⟨c, mq, f, d, cs, acc, esc⟩ := s
    simp only at hq hd
    subst hq hd
    obtain ⟨t, ht⟩ := Option.ne_none_iff_exists'.mp (hcan j (List.mem_cons_self _ _))
    match outs, hlen, hok with
    | (o, r) :: p2 :: rest, hlen, hok =>
      have ho : o ≠ Outcome.rejected ErrVal.nullish := hok (o, r) (by simp)
      have hlen2 : (p2 :: rest).length = js.length + 1 := by simpa using hlen
      have hok2 : ∀ p ∈ p2 :: rest, p.1 ≠ Outcome.rejected ErrVal.nullish :=
        fun p hp => hok p (List.mem_cons_of_mem _ hp)
      have hcan2 : ∀ x ∈ js, toStr x.number ≠ none :=
        fun x hx => hcan x (List.mem_cons_of_mem _ hx)
      have hrun : run tok ⟨c, j :: js, f, [Susp.awaitSend item], cs, acc, esc⟩
            (drainEvents ((o, r) :: p2 :: rest))
          = run tok ⟨c, js, f, [Susp.awaitSend j],
              (cs ++ [Call.sleep (getRandomDelay r)]) ++ [sendCall j], acc, esc⟩
              (drainEvents (p2 :: rest)) := by
        simp [drainEvents, run, step, afterSend_handled _ o r ho, pace, loopTop, resume, ht,
          sendCall_eq ht]
      rw [hrun, ih _ j (p2 :: rest) rfl rfl hlen2 hcan2 hok2]
      have hc := drainCalls_cons j js ((p2 :: rest).map Prod.snd)
      simp only [List.map_cons] at hc ⊢
      simp only [drainCalls, List.headI_cons, List.tail_cons, State.mk.injEq, true_and, and_true]
      rw [hc]
      simp

theorem processQueue_drains (tok : String) (s : State) (j : SendJob) (q : List SendJob)
    (outs : List (Outcome × Nat)) (hf : s.isProcessingQueue = false)
    (hc : s.clientWpp = true) (hq : s.messageQueue = j :: q) (hd : s.drains = [])
    (hlen : outs.length = q.length + 1) (hcan : ∀ x ∈ j :: q, toStr x.number ≠ none)
    (hok : ∀ p ∈ outs, p.1 ≠ Outcome.rejected ErrVal.nullish) :
    run tok (processQueue s) (drainEvents outs)
      = { s with messageQueue := [], isProcessingQueue := false, drains := [],
                 calls := s.calls ++ drainCalls (j :: q) (outs.map Prod.snd) } := by
  obtain ⟨c, mq, f, d, cs, acc, esc⟩ := s
  simp only at hf hc hq hd
  subst hf hc hq hd
  obtain ⟨t, ht⟩ := Option.ne_none_iff_exists'.mp (hcan j (List.mem_cons_self _ _))
  have hp : processQueue ⟨true, j :: q, false, [], cs, acc, esc⟩
      = ⟨true, q, true, [Susp.awaitSend j], cs ++ [sendCall j], acc, esc⟩ := by
    simp [processQueue, loopTop, ht, sendCall_eq ht]
  rw [hp, drain_completes tok q _ j outs rfl rfl hlen
    (fun x hx => hcan x (List.mem_cons_of_mem _ hx)) hok, drainCalls_cons j q]
  simp

theorem settle_sleeps_iff (tok : String) (s : State) (item : SendJob) (o : Outcome)
    (r : Nat) (hd : s.drains = [Susp.awaitSend item])
    (ho : o ≠ Outcome.rejected ErrVal.nullish) :
    ((step tok s (Event.sendSettles 0 o r)).calls = s.calls ++ [Call.sleep (getRandomDelay r)]
        ∧ (step tok s (Event.sendSettles 0 o r)).drains = [Susp.awaitSleep])
      ↔ s.messageQueue ≠ [] := by
  obtain ⟨c, mq, f, d, cs, acc, esc⟩ := s
  simp only at hd
  subst hd
  cases mq with
  | nil => simp [step, afterSend_handled _ o r ho, pace, loopTop, resume]
  | cons j js => simp [step, afterSend_handled _ o r ho, pace, resume]

theorem drain_sends_and_delays (tok : String) (s : State) (j : SendJob) (q : List SendJob)
    (outs : List (Outcome × Nat)) (hf : s.isProcessingQueue = false)
    (hc : s.clientWpp = true) (hq : s.messageQueue = j :: q) (hd : s.drains = [])
    (hlen : outs.length = q.length + 1) (hcan : ∀ x ∈ j :: q, toStr x.number ≠ none)
    (hok : ∀ p ∈ outs, p.1 ≠ Outcome.rejected ErrVal.nullish) :
    (run tok (processQueue s) (drainEvents outs)).messageQueue = []
      ∧ (run tok (processQueue s) (drainEvents outs)).isProcessingQueue = false
      ∧ (run tok (processQueue s) (drainEvents outs)).drains = []
      ∧ (run tok (processQueue s) (drainEvents outs)).escaped = s.escaped
      ∧ sentPairs (run tok (processQueue s) (drainEvents outs)).calls
          = sentPairs s.calls ++ (j :: q).map toPair
      ∧ (delays (run tok (processQueue s) (drainEvents outs)).calls).length
          = (delays s.calls).length + q.length := by
  rw [processQueue_drains tok s j q outs hf hc hq hd hlen hcan hok]
  refine ⟨rfl, rfl, rfl, rfl, ?_, ?_⟩
  · simp only [sentPairs_append, sentPairs_drainCalls]
  · simp only [delays_append, List.length_append, delays_drainCalls_length]
    simp

theorem drain_example_failed_then_resolved :
    run "k" init [Event.sessionReady, Event.post reqA, Event.post reqB,
        Event.sendSettles 0 failed 0, Event.sleepElapses 0,
        Event.sendSettles 0 Outcome.resolved 0]
      = { clientWpp := true, messageQueue := [], isProcessingQueue := false, drains := [],
          calls := [Call.sendText "11988887777@c.us" "A", Call.sleep (getRandomDelay 0),
                    Call.sendText "5511977776666@c.us" "B"],
          accepted := [jobOf reqA, jobOf reqB], escaped := 0 } := by
  rfl

theorem stalled_step (tok : String) (s : State) (e : Event)
    (hf : s.isProcessingQueue = true) (hd : s.drains = []) :
    (step tok s e).isProcessingQueue = true ∧ (step tok s e).drains = []
      ∧ (step tok s e).calls = s.calls ∧ s.messageQueue <+: (step tok s e).messageQueue := by
  cases e with
  | sessionReady => simp [step, processQueue, hf, hd]
  | post req =>
    rcases sendMessage_cases tok s req with h1 | h1 | h1 | ⟨_, _, _, _, _, _, h1⟩
      | ⟨_, _, _, _, _, _, _, _, _, _, _, h1⟩
    · simp [step, h1, hf, hd]
    · simp [step, h1, hf, hd]
    · simp [step, h1, hf, hd]
    · simp [step, h1, push, hf, hd]
    · simp [step, h1, processQueue, noteAccepted, push, hf, hd]
  | sendSettles i o r => simp [step, hd, hf]
  | sleepElapses i => simp [step, hd, hf]

theorem stalled_run (tok : String) (evs : List Event) :
    ∀ s : State, s.isProcessingQueue = true → s.drains = [] →
      (run tok s evs).isProcessingQueue = true ∧ (run tok s evs).drains = []
        ∧ (run tok s evs).calls = s.calls ∧ s.messageQueue <+: (run tok s evs).messageQueue := by
  induction evs with
  | nil => intro s hf hd; simp [run, hf, hd]
  | cons e es ih =>
    intro s hf hd
    obtain ⟨h1, h2, h3, h4⟩ := stalled_step tok s e hf hd
    obtain ⟨k1, k2, k3, k4⟩ := ih (step tok s e) h1 h2
    have hr : run tok s (e :: es) = run tok (step tok s e) es := rfl
    rw [hr]
    exact ⟨k1, k2, k3.trans h3, h4.trans k4⟩

/-! ## Lemmas on binary64 rounding -/

theorem log2_eq_of_binade {n b : Nat} (h1 : 2 ^ b ≤ n) (h2 : n < 2 ^ (b + 1)) :
    Nat.log2 n = b := by
  have hn : n ≠ 0 := by
    intro h0
    subst h0
    exact absurd h1 (by simp)
  have hlt : Nat.log2 n < b + 1 := (Nat.log2_lt hn).mpr h2
  have hle : b ≤ Nat.log2 n := (Nat.le_log2 hn).mpr h1
  omega

theorem roundDouble_cases (n : Nat) :
    (roundDouble n = n / 2 ^ (Nat.log2 n - 52) * 2 ^ (Nat.log2 n - 52)
        ∧ 2 * (n % 2 ^ (Nat.log2 n - 52)) ≤ 2 ^ (Nat.log2 n - 52))
      ∨ (roundDouble n = (n / 2 ^ (Nat.log2 n - 52) + 1) * 2 ^ (Nat.log2 n - 52)
        ∧ 2 ^ (Nat.log2 n - 52) ≤ 2 * (n % 2 ^ (Nat.log2 n - 52))) := by
  unfold roundDouble
  simp only
  split
  · left; exact ⟨rfl, by omega⟩
  · split
    · right; exact ⟨rfl, by omega⟩
    · have h2 : (n / 2 ^ (Nat.log2 n - 52)) % 2 = 0 ∨ (n / 2 ^ (Nat.log2 n - 52)) % 2 = 1 := by
        omega
      rcases h2 with h2 | h2
      · left; rw [h2]; exact ⟨rfl, by omega⟩
      · right; rw [h2]; exact ⟨rfl, by omega⟩

theorem roundDouble_le_pow {n k : Nat} (h : n < 2 ^ k) : roundDouble n ≤ 2 ^ k := by
  by_cases hn : n = 0
  · subst hn
    simp [roundDouble]
  have hb : Nat.log2 n < k := (Nat.log2_lt hn).mpr h
  have hlt : n < 2 ^ (Nat.log2 n + 1) := Nat.lt_log2_self
  by_cases h52 : Nat.log2 n ≤ 52
  · have hu : Nat.log2 n - 52 = 0 := by omega
    have : roundDouble n = n := by
      unfold roundDouble
      simp [hu, Nat.mod_one]
    omega
  · have hsplit : 2 ^ (Nat.log2 n + 1) = 2 ^ 53 * 2 ^ (Nat.log2 n - 52) := by
      rw [← pow_add]
      congr 1
      omega
    have hu : 0 < 2 ^ (Nat.log2 n - 52) := by positivity
    have hq : n / 2 ^ (Nat.log2 n - 52) < 2 ^ 53 := by
      rw [Nat.div_lt_iff_lt_mul hu]
      omega
    have hle : (n / 2 ^ (Nat.log2 n - 52) + 1) * 2 ^ (Nat.log2 n - 52)
        ≤ 2 ^ (Nat.log2 n + 1) := by
      rw [hsplit]
      exact Nat.mul_le_mul_right _ hq
    have hk : 2 ^ (Nat.log2 n + 1) ≤ 2 ^ k := Nat.pow_le_pow_right (by norm_num) hb
    rcases roundDouble_cases n with ⟨he, _⟩ | ⟨he, _⟩
    · rw [he]
      have : n / 2 ^ (Nat.log2 n - 52) * 2 ^ (Nat.log2 n - 52)
          ≤ (n / 2 ^ (Nat.log2 n - 52) + 1) * 2 ^ (Nat.log2 n - 52) :=
        Nat.mul_le_mul_right _ (Nat.le_succ _)
      omega
    · rw [he]
      omega

theorem first_round_le (r : Nat) (h : r ≤ 2 ^ 1074 - 2 ^ 1022) :
    roundDouble (r * 15001) ≤ 15001 * 2 ^ 1074 - 2 ^ 1036 := by
  by_cases hlow : r * 15001 < 2 ^ 1087
  · have := roundDouble_le_pow hlow
    have hc : (2:Nat) ^ 1087 ≤ 15001 * 2 ^ 1074 - 2 ^ 1036 := by norm_num
    omega
  · have hb : Nat.log2 (r * 15001) = 1087 := by
      apply log2_eq_of_binade
      · omega
      · have : (2 ^ 1074 - 2 ^ 1022) * 15001 < 2 ^ (1087 + 1) := by norm_num
        have := Nat.mul_le_mul_right 15001 h
        omega
    have hdiv := Nat.div_add_mod (r * 15001) (2 ^ 1035)
    have hmod := Nat.mod_lt (r * 15001) (show 0 < 2 ^ 1035 by positivity)
    have hr := Nat.mul_le_mul_right 15001 h
    rcases roundDouble_cases (r * 15001) with ⟨he, hc⟩ | ⟨he, hc⟩
    · rw [he, hb]
      rw [hb] at hc
      norm_num at hdiv hmod hr hc ⊢
      omega
    · rw [he, hb]
      rw [hb] at hc
      norm_num at hdiv hmod hr hc ⊢
      omega

theorem second_round_le (n : Nat) (hlo : 10000 * 2 ^ 1074 ≤ n)
    (hhi : n ≤ 25001 * 2 ^ 1074 - 2 ^ 1036) :
    roundDouble n ≤ 25001 * 2 ^ 1074 - 2 ^ 1036 := by
  by_cases hlow : n < 2 ^ 1088
  · have := roundDouble_le_pow hlow
    have hc : (2:Nat) ^ 1088 ≤ 25001 * 2 ^ 1074 - 2 ^ 1036 := by norm_num
    omega
  · have hb : Nat.log2 n = 1088 := by
      apply log2_eq_of_binade
      · omega
      · have : 25001 * 2 ^ 1074 - 2 ^ 1036 < 2 ^ (1088 + 1) := by norm_num
        omega
    have hdiv := Nat.div_add_mod n (2 ^ 1036)
    have hmod := Nat.mod_lt n (show 0 < 2 ^ 1036 by positivity)
    rcases roundDouble_cases n with ⟨he, hc⟩ | ⟨he, hc⟩
    · rw [he, hb]
      rw [hb] at hc
      norm_num at hdiv hmod hhi hc ⊢
      omega
    · rw [he, hb]
      rw [hb] at hc
      norm_num at hdiv hmod hhi hc ⊢
      omega

theorem second_round_ge (n : Nat) (hlo : 10000 * 2 ^ 1074 ≤ n) (hhi : n < 2 ^ 1089) :
    10000 * 2 ^ 1074 ≤ roundDouble n := by
  have hfloor : n / 2 ^ (Nat.log2 n - 52) * 2 ^ (Nat.log2 n - 52) ≤ roundDouble n := by
    rcases roundDouble_cases n with ⟨he, _⟩ | ⟨he, _⟩
    · rw [he]
    · rw [he]
      exact Nat.mul_le_mul_right _ (Nat.le_succ _)
  have h87 : (2:Nat) ^ 1087 ≤ 10000 * 2 ^ 1074 := by norm_num
  by_cases hlow : n < 2 ^ 1088
  · have hb : Nat.log2 n = 1087 := @log2_eq_of_binade n 1087 (by omega) hlow
    rw [hb] at hfloor
    have hdiv := Nat.div_add_mod n (2 ^ 1035)
    have hmod := Nat.mod_lt n (show 0 < 2 ^ 1035 by positivity)
    norm_num at hdiv hmod hlo hfloor ⊢
    omega
  · have hb : Nat.log2 n = 1088 := @log2_eq_of_binade n 1088 (by omega) hhi
    rw [hb] at hfloor
    have hdiv := Nat.div_add_mod n (2 ^ 1036)
    have hmod := Nat.mod_lt n (show 0 < 2 ^ 1036 by positivity)
    norm_num at hdiv hmod hlo hfloor ⊢
    omega

theorem double_below_one (r : Nat) (hd : roundDouble r = r) (hlt : r < 2 ^ 1074)
    (hne : r ≠ 2 ^ 1074 - 2 ^ 1021) : r ≤ 2 ^ 1074 - 2 ^ 1022 := by
  by_cases hlow : r < 2 ^ 1073
  · have hc : (2:Nat) ^ 1073 ≤ 2 ^ 1074 - 2 ^ 1022 := by norm_num
    omega
  · have hb : Nat.log2 r = 1073 := @log2_eq_of_binade r 1073 (by omega) hlt
    have hdiv := Nat.div_add_mod r (2 ^ 1021)
    have hmod := Nat.mod_lt r (show 0 < 2 ^ 1021 by positivity)
    rcases roundDouble_cases r with ⟨he, hc⟩ | ⟨he, hc⟩
    · rw [hd, hb] at he
      norm_num at hdiv hmod hlt hne he ⊢
      omega
    · rw [hd, hb] at he
      norm_num at hdiv hmod hlt hne he ⊢
      omega

theorem log2_maxRandom_product : Nat.log2 ((2 ^ 1074 - 2 ^ 1021) * 15001) = 1087 := by
  apply log2_eq_of_binade <;> norm_num

theorem round_maxRandom_product : roundDouble ((2 ^ 1074 - 2 ^ 1021) * 15001) = 15001 * 2 ^ 1074 - 2 ^ 1035 := by
  unfold roundDouble
  rw [log2_maxRandom_product]
  norm_num

theorem log2_maxRandom_sum : Nat.log2 (15001 * 2 ^ 1074 - 2 ^ 1035 + 10000 * 2 ^ 1074) = 1088 := by
  apply log2_eq_of_binade <;> norm_num

theorem round_maxRandom_sum : roundDouble (15001 * 2 ^ 1074 - 2 ^ 1035 + 10000 * 2 ^ 1074) = 25001 * 2 ^ 1074 := by
  unfold roundDouble
  rw [log2_maxRandom_sum]
  norm_num

theorem delay_span : MAX_DELAY - MIN_DELAY + 1 = 15001 := by decide
theorem min_delay_value : MIN_DELAY = 10000 := rfl
theorem getRandomDelay_unfold (r : Nat) : getRandomDelay r = roundDouble (roundDouble (r * 15001) + 10000 * 2 ^ 1074) / 2 ^ 1074 := by
  unfold getRandomDelay one64
  rw [delay_span, min_delay_value]
theorem round_maxRandom :
    roundDouble (roundDouble ((2 ^ 1074 - 2 ^ 1021) * 15001) + 10000 * 2 ^ 1074)
      = 25001 * 2 ^ 1074 := by
  rw [round_maxRandom_product, round_maxRandom_sum]

theorem floor_maxRandom : 25001 * 2 ^ 1074 / 2 ^ 1074 = 25001 :=
  Nat.mul_div_cancel _ (by positivity)

theorem log2_maxRandom : Nat.log2 (2 ^ 1074 - 2 ^ 1021) = 1073 := by
  apply log2_eq_of_binade <;> norm_num

theorem maxRandom_isDouble : roundDouble (2 ^ 1074 - 2 ^ 1021) = 2 ^ 1074 - 2 ^ 1021 := by
  unfold roundDouble
  rw [log2_maxRandom]
  norm_num

/-- Every double below 1 other than the largest one, `1 - 2^-53`, gives a delay within
the configured window. -/
theorem getRandomDelay_bounds (r : Nat) (hd : isDouble r) (hlt : r < 2 ^ 1074)
    (hne : r ≠ 2 ^ 1074 - 2 ^ 1021) :
    MIN_DELAY ≤ getRandomDelay r ∧ getRandomDelay r ≤ MAX_DELAY := by
  have hr := double_below_one r hd hlt hne
  have h1 := first_round_le r hr
  have hlo : 10000 * 2 ^ 1074 ≤ roundDouble (r * 15001) + 10000 * 2 ^ 1074 := Nat.le_add_left _ _
  have hhi : roundDouble (r * 15001) + 10000 * 2 ^ 1074 ≤ 25001 * 2 ^ 1074 - 2 ^ 1036 := by
    norm_num at h1 ⊢
    omega
  have h2 := second_round_le _ hlo hhi
  have hhi2 : roundDouble (r * 15001) + 10000 * 2 ^ 1074 < 2 ^ 1089 := by
    norm_num at hhi ⊢
    omega
  have h3 := second_round_ge _ hlo hhi2
  rw [getRandomDelay_unfold]
  unfold MIN_DELAY MAX_DELAY
  constructor
  · rw [Nat.le_div_iff_mul_le (by positivity)]
    exact h3
  · have hpos : 0 < 2 ^ 1074 := by positivity
    have : roundDouble (roundDouble (r * 15001) + 10000 * 2 ^ 1074) < 25001 * 2 ^ 1074 := by
      norm_num at h2 ⊢
      omega
    have := (Nat.div_lt_iff_lt_mul hpos).mpr this
    omega

/-! ## The claims -/

/-- C1: whatever events occur from the initial state (requests at any moment, each
`sendText` promise resolving or rejecting with any value), the `(address, body)`
pairs handed to `clientWpp.sendText` so far, followed by the pairs of the jobs still
waiting that can be sent, are the pairs of the jobs enqueued by the accepted requests,
in enqueue order, and each of those jobs can be sent.  So once the queue is empty the
pairs handed to `sendText` are exactly the enqueued jobs in order, each once.  And a
failed send does not stop the next one: from any reachable state with a send pending
and the waiting jobs all sendable, whatever way the pending and the following sends
settle, resolved or rejected with a value that the `catch` block can log, the drain
runs to its end: the queue is emptied, the flag is cleared, no activation remains and
`sendText` has received every enqueued job, in order, exactly once. -/
theorem fifo_exactly_once (tok : String) (evs : List Event) :
    (sentPairs (run tok init evs).calls ++ pairs (run tok init evs).messageQueue
        = (enqueuedBy tok init evs).map toPair
      ∧ ∀ j ∈ enqueuedBy tok init evs, toStr j.number ≠ none)
      ∧ ((run tok init evs).messageQueue = [] →
          sentPairs (run tok init evs).calls = (enqueuedBy tok init evs).map toPair)
      ∧ (∀ (item : SendJob) (outs : List (Outcome × Nat)),
          (run tok init evs).drains = [Susp.awaitSend item] →
          (∀ j ∈ (run tok init evs).messageQueue, toStr j.number ≠ none) →
          outs.length = (run tok init evs).messageQueue.length + 1 →
          (∀ p ∈ outs, p.1 ≠ Outcome.rejected ErrVal.nullish) →
          (run tok init (evs ++ drainEvents outs)).messageQueue = []
            ∧ (run tok init (evs ++ drainEvents outs)).isProcessingQueue = false
            ∧ (run tok init (evs ++ drainEvents outs)).drains = []
            ∧ sentPairs (run tok init (evs ++ drainEvents outs)).calls
                = (enqueuedBy tok init evs).map toPair) := by
  have hinv := inv_run tok evs inv_init
  have ha : (run tok init evs).accepted = enqueuedBy tok init evs := by
    have := accepted_run tok evs init
    simpa [init] using this
  have hfifo := hinv.fifo
  have hcan := hinv.canSend
  rw [ha] at hfifo hcan
  refine ⟨⟨hfifo, hcan⟩, fun hq => ?_, fun item outs hd hq hlen hok => ?_⟩
  · rw [hq] at hfifo
    simpa [pairs] using hfifo
  · rw [run_append, drain_completes tok _ (run tok init evs) item outs rfl hd hlen hq hok]
    refine ⟨rfl, rfl, rfl, ?_⟩
    show sentPairs ((run tok init evs).calls ++ _) = _
    rw [sentPairs_append, sentPairs_drainCalls_tail, ← pairs_eq_map hq]
    exact hfifo

/-- Witness of C1: the session becomes ready, A, B and C are posted, every send
resolves; at the end the queue is empty and `sendText` has received exactly A, B, C
in that order.  The same holds, with the flag cleared at the end, when the sends of A
and of C are rejected with an `Error`. -/
theorem fifo_exactly_once_witness :
    (run "k" init traceABC).messageQueue = []
      ∧ sentPairs (run "k" init traceABC).calls
          = [("11988887777@c.us", JsValue.string "A"), ("5511977776666@c.us", JsValue.string "B"),
             ("5511966665555@c.us", JsValue.string "C")]
      ∧ (run "k" init ([Event.sessionReady, Event.post reqA, Event.post reqB, Event.post reqC]
            ++ drainEvents [(failed, 0), (Outcome.resolved, 0), (failed, 0)])).isProcessingQueue
          = false
      ∧ sentPairs (run "k" init ([Event.sessionReady, Event.post reqA, Event.post reqB,
            Event.post reqC]
            ++ drainEvents [(failed, 0), (Outcome.resolved, 0), (failed, 0)])).calls
          = [("11988887777@c.us", JsValue.string "A"), ("5511977776666@c.us", JsValue.string "B"),
             ("5511966665555@c.us", JsValue.string "C")] :=
  ⟨by decide,
   by
    rw [(fifo_exactly_once "k" traceABC).2.1 (by decide)]
    decide,
   ((fifo_exactly_once "k"
      [Event.sessionReady, Event.post reqA, Event.post reqB, Event.post reqC]).2.2
      (jobOf reqA) [(failed, 0), (Outcome.resolved, 0), (failed, 0)]
      (by decide) (by decide) (by decide) (by decide)).2.1,
   by
    rw [((fifo_exactly_once "k"
      [Event.sessionReady, Event.post reqA, Event.post reqB, Event.post reqC]).2.2
      (jobOf reqA) [(failed, 0), (Outcome.resolved, 0), (failed, 0)]
      (by decide) (by decide) (by decide) (by decide)).2.2.2]
    decide⟩

/-- C2: in a state where `isProcessingQueue` is set, or `messageQueue` is empty, or
`clientWpp` is null, a call of `processQueue` returns the state as it found it: the
queue and the flag are unchanged, no `sendText` call is added to the log and no
activation is added to the suspended ones. -/
theorem processQueue_guard_noop (s : State)
    (h : s.isProcessingQueue = true ∨ s.messageQueue = [] ∨ s.clientWpp = false) :
    processQueue s = s := by
  unfold processQueue
  rcases h with h | h | h <;> simp [h]

/-- Witness of C2: with the send of A pending and B waiting, a further call of
`processQueue` changes nothing. -/
theorem processQueue_guard_noop_witness :
    (run "k" init [Event.sessionReady, Event.post reqA, Event.post reqB]).isProcessingQueue = true
      ∧ processQueue (run "k" init [Event.sessionReady, Event.post reqA, Event.post reqB])
          = run "k" init [Event.sessionReady, Event.post reqA, Event.post reqB] :=
  ⟨by decide, processQueue_guard_noop _ (Or.inl (by decide))⟩

/-- C3: in every state reached from the initial one by any sequence of events, at
most one activation of `processQueue` is suspended in its loop, and at most one
`sendText` call is pending. -/
theorem single_flight (tok : String) (evs : List Event) :
    (run tok init evs).drains.length ≤ 1 ∧ inFlight (run tok init evs) ≤ 1 := by
  have h := (inv_run tok evs inv_init).single
  refine ⟨h, le_trans ?_ h⟩
  unfold inFlight
  exact List.length_filter_le _ _

theorem idle_queue_holds_nothing_sendable (tok : String) (evs : List Event) :
    ((run tok init evs).isProcessingQueue = false → pairs (run tok init evs).messageQueue = [])
      ∧ ((run tok init evs).clientWpp = false → (run tok init evs).messageQueue = [])
      ∧ ((run tok init evs).isProcessingQueue = true →
          (run tok init evs).drains.length = 1 ∨ 0 < (run tok init evs).escaped) := by
  have h := inv_run tok evs inv_init
  refine ⟨h.idleQueue, fun hc => ?_, h.live⟩
  by_contra hne
  have := h.queueClient hne
  simp [hc] at this

/-- C10 at its failing inputs.  First the claim's own scenario: the send of A is the
last one of the drain (the queue is empty), B is posted while it is pending and the
promise is then rejected with `undefined`; B is left in the queue with no activation
of `processQueue` suspended, and whatever happens afterwards it stays there and none
is ever suspended again.  Second the stated invariant: after the session is ready, the
request with `number = {"toString": null}` is pushed at line 142 before line 144
throws, so that `isProcessingQueue` is false while `messageQueue` is not empty. -/
theorem lost_wakeup_after_escape :
    (run "k" init [Event.sessionReady, Event.post reqA]).drains = [Susp.awaitSend (jobOf reqA)]
      ∧ (run "k" init [Event.sessionReady, Event.post reqA]).messageQueue = []
      ∧ (run "k" init traceNullish).messageQueue = [jobOf reqB]
      ∧ (run "k" init traceNullish).drains = []
      ∧ (∀ evs : List Event,
          (run "k" (run "k" init traceNullish) evs).drains = []
            ∧ [jobOf reqB] <+: (run "k" (run "k" init traceNullish) evs).messageQueue)
      ∧ (run "k" init [Event.sessionReady, Event.post reqBad]).isProcessingQueue = false
      ∧ (run "k" init [Event.sessionReady, Event.post reqBad]).messageQueue = [jobOf reqBad] := by
  refine ⟨by decide, by decide, by decide, by decide, fun evs => ?_, by decide, by decide⟩
  obtain ⟨_, h2, _, h4⟩ :=
    stalled_run "k" evs (run "k" init traceNullish) (by decide) (by decide)
  have hq : (run "k" init traceNullish).messageQueue = [jobOf reqB] := by decide
  rw [hq] at h4
  exact ⟨h2, h4⟩

theorem replaceNonDigits_eq_filter (l : List Char) :
    replaceNonDigits l = l.filter Char.isDigit := by
  induction l with
  | nil => rfl
  | cons c cs ih =>
    have hc : isNonDigit c = !c.isDigit := by
      simp only [isNonDigit, Char.isDigit, Char.le_def, UInt32.le_def]
      rfl
    unfold replaceNonDigits
    rw [ih, hc]
    cases hd : c.isDigit <;> simp [hd]

/-- C6: when `processQueue` takes from the head of the queue a job whose `number` has
the string form `t` (for a string, the string itself), the address it passes to
`sendText` is the string of the ASCII digits of `t`, in their order, followed by
`@c.us`, and the body is the job's `message`; every character before the suffix lies
between `0` and `9`. -/
theorem address_is_digits (s : State) (item : SendJob) (rest : List SendJob) (t : String)
    (hq : s.messageQueue = item :: rest) (ht : toStr item.number = some t) :
    (loopTop s).1.calls
        = s.calls ++ [Call.sendText
            (String.mk (t.data.filter Char.isDigit) ++ "@c.us") item.message]
      ∧ (loopTop s).1.messageQueue = rest
      ∧ ∀ c ∈ t.data.filter Char.isDigit, '0' ≤ c ∧ c ≤ '9' := by
  refine ⟨?_, ?_, ?_⟩
  · simp [loopTop, hq, ht, formattedNumber, cleanNumber, replaceNonDigits_eq_filter]
  · simp [loopTop, hq, ht]
  · intro c hc
    have hd := (List.mem_filter.mp hc).2
    simp only [Char.isDigit, Bool.and_eq_true, decide_eq_true_eq] at hd
    exact ⟨hd.1, hd.2⟩

/-- Witness of C6: the destination `(11) 98888-7777` is sent to `11988887777@c.us`. -/
theorem address_is_digits_witness :
    (loopTop { init with messageQueue := [jobOf reqA] }).1.calls
      = [Call.sendText "11988887777@c.us" "A"] := by
  rw [(address_is_digits { init with messageQueue := [jobOf reqA] } (jobOf reqA) []
    "(11) 98888-7777" rfl rfl).1]
  decide

theorem rejections_leave_state (tok : String) (s : State) (req : Request) :
    (req.parses = false →
        sendMessage tok s req = (s, { status := 400, queueSize := none }))
      ∧ (req.parses = true → req.token ≠ some tok →
        sendMessage tok s req = (s, { status := 403, queueSize := none }))
      ∧ (req.parses = true → req.token = some tok → s.clientWpp = false →
        sendMessage tok s req = (s, { status := 503, queueSize := none }))
      ∧ (req.parses = true → req.token = some tok → s.clientWpp = true →
          (falsy req.number = true ∨ falsy req.message = true) →
        sendMessage tok s req = (s, { status := 400, queueSize := none }))
      ∧ ((sendMessage tok s req).2.status ∈ [400, 403, 503] → (sendMessage tok s req).1 = s)
      ∧ ((sendMessage tok s req).1.messageQueue ≠ s.messageQueue →
        (sendMessage tok s req).2.status = 200 ∨ (sendMessage tok s req).2.status = 500) := by
  obtain ⟨p, t, n, m⟩ := req
  refine ⟨?_, ?_, ?_, ?_, ?_, ?_⟩
  · intro hp
    simp only at hp
    simp [sendMessage, hp]
  · intro hp h
    simp only at hp h
    simp [sendMessage, hp, h]
  · intro hp h hc
    simp only at hp h
    simp [sendMessage, hp, h, hc]
  · intro hp h hc hf
    simp only at hp h hf
    cases n with
    | none => simp [sendMessage, hp, h, hc]
    | some number =>
      cases m with
      | none => simp [sendMessage, hp, h, hc]
      | some message =>
        have : (falsy (some number) || falsy (some message)) = true := by
          rcases hf with hf | hf <;> simp [hf]
        simp [sendMessage, hp, h, hc, this]
  · intro hst
    apply sendMessage_reject
    · intro h
      rw [h] at hst
      simp at hst
    · intro h
      rw [h] at hst
      simp at hst
  · intro h
    by_contra hst
    simp only [not_or] at hst
    exact h (by rw [sendMessage_reject tok s ⟨p, t, n, m⟩ hst.1 hst.2])

/-- C8 at its failing input: the session is ready, nothing is pending, and a request
with the right token has the body `{"number": {"toString": null}, "message": "X"}`.
Both fields pass the test of line 138 and line 142 pushes the job; the template string
of line 144 then throws, so the answer is 500, not 200, and the job is in the queue
with the flag cleared.  When A is posted next it is answered 200, but `processQueue`
shifts the first job, whose `number` converts neither at line 52 nor at line 61: the
exception leaves `processQueue`, the flag stays set and A is never sent. -/
theorem bad_number_enqueued_with_500 :
    (sendMessage "k" (run "k" init [Event.sessionReady]) reqBad).2.status = 500
      ∧ (run "k" init [Event.sessionReady]).messageQueue = []
      ∧ (sendMessage "k" (run "k" init [Event.sessionReady]) reqBad).1.messageQueue
          = [jobOf reqBad]
      ∧ (sendMessage "k" (run "k" init [Event.sessionReady]) reqBad).1.isProcessingQueue = false
      ∧ (sendMessage "k" (run "k" init [Event.sessionReady, Event.post reqBad]) reqA).2.status
          = 200
      ∧ (run "k" init [Event.sessionReady, Event.post reqBad, Event.post reqA]).messageQueue
          = [jobOf reqA]
      ∧ (run "k" init [Event.sessionReady, Event.post reqBad, Event.post reqA]).escaped = 1
      ∧ ∀ evs : List Event,
          (run "k" (run "k" init [Event.sessionReady, Event.post reqBad, Event.post reqA])
              evs).calls = []
            ∧ (run "k" (run "k" init [Event.sessionReady, Event.post reqBad, Event.post reqA])
              evs).isProcessingQueue = true := by
  refine ⟨by decide, by decide, by decide, by decide, by decide, by decide, by decide,
    fun evs => ?_⟩
  obtain ⟨h1, _, h3, _⟩ :=
    stalled_run "k" evs (run "k" init [Event.sessionReady, Event.post reqBad, Event.post reqA])
      (by decide) (by decide)
  refine ⟨?_, h1⟩
  rw [h3]
  decide

/-- Counterexample to C7 as stated: the session is ready, nothing is pending and no
drain is running; the request for A is accepted with status 200 and its `queueSize`
is 0, not the 1 that "pending before the request plus one" gives. -/
theorem queueSize_counterexample :
    (run "k" init [Event.sessionReady]).messageQueue.length = 0
      ∧ (run "k" init [Event.sessionReady]).isProcessingQueue = false
      ∧ (sendMessage "k" (run "k" init [Event.sessionReady]) reqA).2.status = 200
      ∧ (sendMessage "k" (run "k" init [Event.sessionReady]) reqA).2.queueSize = some 0
      ∧ (sendMessage "k" (run "k" init [Event.sessionReady]) reqA).2.queueSize
          ≠ some ((run "k" init [Event.sessionReady]).messageQueue.length + 1) := by
  decide

/-- C7 as amended: the `queueSize` of a 200 response is the length of `messageQueue`
when the handler builds the response, after its call of `processQueue` has
returned.  That is the number of jobs pending before the request plus one when
`isProcessingQueue` was already set, and the number of jobs pending before the
request when it was not, because `processQueue` then starts and shifts the head job
before its first `await`. -/
theorem queueSize_reported (tok : String) (s : State) (req : Request)
    (h : (sendMessage tok s req).2.status = 200) :
    (sendMessage tok s req).2.queueSize
        = some (if s.isProcessingQueue = true then s.messageQueue.length + 1
                else s.messageQueue.length)
      ∧ (sendMessage tok s req).2.queueSize
        = some (sendMessage tok s req).1.messageQueue.length := by
  obtain ⟨number, message, t, _, _, _, _, hc, _, _, hs, heq⟩ := sendMessage_accept tok s req h
  rw [heq]
  refine ⟨?_, rfl⟩
  cases hf : s.isProcessingQueue with
  | true => simp [processQueue, noteAccepted, push, hf]
  | false =>
    cases hq : s.messageQueue with
    | nil => simp [processQueue, loopTop, noteAccepted, push, hf, hc, hq, hs]
    | cons j js =>
      cases hj : toStr j.number <;>
        simp [processQueue, loopTop, noteAccepted, push, hf, hc, hq, hj]

/-- Witness of C7 as amended: with the send of A pending, the request for B is
answered with `queueSize` 1. -/
theorem queueSize_reported_witness :
    (sendMessage "k" (run "k" init [Event.sessionReady, Event.post reqA]) reqB).2.status = 200
      ∧ (sendMessage "k" (run "k" init [Event.sessionReady, Event.post reqA]) reqB).2.queueSize
          = some 1 :=
  ⟨by decide, by
    rw [(queueSize_reported "k" (run "k" init [Event.sessionReady, Event.post reqA]) reqB
      (by decide)).1]
    decide⟩

/-- C4 at its failing input: A and B are enqueued and the `sendText` promise of A is
rejected with `undefined`.  Reading `error.message` in the `catch` block throws, the
exception leaves `processQueue`, the flag stays set and B stays in the queue; and
whatever happens afterwards, the flag remains set, B remains queued and `sendText`
is never called again. -/
theorem nullish_rejection_stalls :
    (run "k" init traceNullish).escaped = 1
      ∧ (run "k" init traceNullish).isProcessingQueue = true
      ∧ (run "k" init traceNullish).messageQueue = [jobOf reqB]
      ∧ (run "k" init traceNullish).drains = []
      ∧ ∀ evs : List Event,
          (run "k" (run "k" init traceNullish) evs).isProcessingQueue = true
            ∧ [jobOf reqB] <+: (run "k" (run "k" init traceNullish) evs).messageQueue
            ∧ sentPairs (run "k" (run "k" init traceNullish) evs).calls
                = [toPair (jobOf reqA)] := by
  refine ⟨by decide, by decide, by decide, by decide, fun evs => ?_⟩
  obtain ⟨h1, _, h3, h4⟩ :=
    stalled_run "k" evs (run "k" init traceNullish) (by decide) (by decide)
  refine ⟨h1, ?_, ?_⟩
  · have hq : (run "k" init traceNullish).messageQueue = [jobOf reqB] := by decide
    rwa [hq] at h4
  · rw [h3]
    decide

/-- C9 at its failing input: the send of A is pending and B waits in the queue; when
the promise is rejected with `undefined`, whatever `Math.random()` would return, the
queue is non-empty after the attempt and yet no `sleep` call is made and no
activation is left suspended: the only call on record is the `sendText` for A. -/
theorem nullish_rejection_skips_delay (r : Nat) :
    (run "k" init [Event.sessionReady, Event.post reqA, Event.post reqB]).drains
        = [Susp.awaitSend (jobOf reqA)]
      ∧ (step "k" (run "k" init [Event.sessionReady, Event.post reqA, Event.post reqB])
          (Event.sendSettles 0 (Outcome.rejected ErrVal.nullish) r)).messageQueue
        = [jobOf reqB]
      ∧ (step "k" (run "k" init [Event.sessionReady, Event.post reqA, Event.post reqB])
          (Event.sendSettles 0 (Outcome.rejected ErrVal.nullish) r)).calls
        = [Call.sendText "11988887777@c.us" "A"]
      ∧ delays (step "k" (run "k" init [Event.sessionReady, Event.post reqA, Event.post reqB])
          (Event.sendSettles 0 (Outcome.rejected ErrVal.nullish) r)).calls = []
      ∧ (step "k" (run "k" init [Event.sessionReady, Event.post reqA, Event.post reqB])
          (Event.sendSettles 0 (Outcome.rejected ErrVal.nullish) r)).drains = [] := by
  have hs : run "k" init [Event.sessionReady, Event.post reqA, Event.post reqB]
      = ⟨true, [jobOf reqB], true, [Susp.awaitSend (jobOf reqA)],
          [Call.sendText "11988887777@c.us" "A"], [jobOf reqA, jobOf reqB], 0⟩ := by
    decide
  rw [hs]
  simp [step, afterSend, resume, delays]

/-- C5 at its failing input: `Math.random()` returns `1 - 2^-53`, the largest double
below 1.  The product with 15001 rounds to `15001 - 2^-39`; adding 10000 gives
`25001 - 2^-39` exactly, half-way between the doubles `25001 - 2^-38` and `25001`, and
the tie goes to the even one, `25001`.  So `getRandomDelay` returns 25001, one more
than `MAX_DELAY`. -/
theorem getRandomDelay_exceeds_max :
    isDouble (2 ^ 1074 - 2 ^ 1021)
      ∧ 2 ^ 1074 - 2 ^ 1021 < one64
      ∧ roundDouble ((2 ^ 1074 - 2 ^ 1021) * (MAX_DELAY - MIN_DELAY + 1))
          = 15001 * 2 ^ 1074 - 2 ^ 1035
      ∧ getRandomDelay (2 ^ 1074 - 2 ^ 1021) = 25001
      ∧ MAX_DELAY < getRandomDelay (2 ^ 1074 - 2 ^ 1021) := by
  have hv : getRandomDelay (2 ^ 1074 - 2 ^ 1021) = 25001 := by
    rw [getRandomDelay_unfold, round_maxRandom, floor_maxRandom]
  refine ⟨maxRandom_isDouble, ?_, ?_, hv, ?_⟩
  · unfold one64
    norm_num
  · rw [delay_span, round_maxRandom_product]
  · rw [hv]
    decide

end ZapServer
